import Mathlib

/-!
Shallow embedding of the OpenDAL content/metadata cache layer
(`src/layers/cache.rs`) and proofs about its specification.

Machine integers (`u64`, `usize`) are modelled as `Nat`; every subtraction
performed by the source is guarded in the source so that `Nat` truncated
subtraction agrees with the Rust value, and the claims under verification
all constrain inputs to stay inside `u64` range.
-/

set_option maxHeartbeats 1000000

namespace OpenDAL

/-- Byte range of a read request: `offset` and `size` may each be
unspecified, mirroring `BytesRange` in the source. A Rust range
`(a..b).into()` yields `offset = some a`, `size = some (b - a)`. -/
structure BytesRange where
  offset : Option Nat
  size : Option Nat
  deriving DecidableEq

/-- Embedding of `(a..b).into() : BytesRange` from the source. -/
def rangeOf (a b : Nat) : BytesRange :=
  ⟨some a, some (b - a)⟩

/-- State of `FixedCacheRangeIterator` (cache.rs lines 244-251). -/
structure FixedCacheRangeIterator where
  offset : Nat
  size : Nat
  step : Nat
  cur : Nat
  deriving DecidableEq

namespace FixedCacheRangeIterator

/-- `FixedCacheRangeIterator::new` (cache.rs lines 254-262). -/
def new (offset size step : Nat) : FixedCacheRangeIterator :=
  ⟨offset, size, step, offset⟩

/-- `FixedCacheRangeIterator::cache_index` (cache.rs lines 269-271). -/
def cache_index (it : FixedCacheRangeIterator) : Nat :=
  it.cur / it.step

/-- `FixedCacheRangeIterator::cache_range` (cache.rs lines 274-282), with the
two `let` bindings `skipped_rem` and `to_read` inlined. -/
def cache_range (it : FixedCacheRangeIterator) : BytesRange :=
  if it.step - it.cur % it.step ≤ it.size + it.offset - it.cur then
    rangeOf (it.cur % it.step) it.step
  else
    rangeOf (it.cur % it.step) (it.cur % it.step + (it.size + it.offset - it.cur))

/-- `FixedCacheRangeIterator::total_range` (cache.rs lines 289-292). -/
def total_range (it : FixedCacheRangeIterator) : BytesRange :=
  rangeOf (it.step * (it.cur / it.step)) (it.step * (it.cur / it.step + 1))

/-- `Iterator::next` for `FixedCacheRangeIterator` (cache.rs lines 299-308).
The source's `cache_range.size().expect(..)` is rendered as `Option.getD 0`;
`cache_range` always returns a fully specified range (proved below), so the
default is never taken. -/
def next (it : FixedCacheRangeIterator) :
    Option ((Nat × BytesRange × BytesRange) × FixedCacheRangeIterator) :=
  if it.offset + it.size ≤ it.cur then
    none
  else
    some ((it.cache_index, it.cache_range, it.total_range),
      { it with cur := it.cur + it.cache_range.size.getD 0 })

/-- Collect the iterator's remaining output; `fuel` bounds the number of
steps. The source iterator is lazy, `collectAux` with enough fuel is its
full output (cf. `it.collect()` in the source's tests). -/
def collectAux : Nat → FixedCacheRangeIterator → List (Nat × BytesRange × BytesRange)
  | 0, _ => []
  | fuel + 1, it =>
    match it.next with
    | none => []
    | some (t, it2) => t :: collectAux fuel it2

/-- Full output of the iterator. `offset + size` steps of fuel suffice
because every yield advances `cur` by at least one. -/
def collect (it : FixedCacheRangeIterator) : List (Nat × BytesRange × BytesRange) :=
  collectAux (it.offset + it.size) it

end FixedCacheRangeIterator

/-- Length of the intra-chunk range of one yielded triple. -/
def intraSize (t : Nat × BytesRange × BytesRange) : Nat :=
  t.2.1.size.getD 0

/-- Modelled from the spec: the error kinds of the storage abstraction that
the cache layer distinguishes (`ErrorKind` lives outside src/); the spec
names `ObjectNotFound` and `Unexpected` as distinguished kinds and says any
other kind is propagated unchanged. -/
inductive ErrorKind where
  | ObjectNotFound
  | ObjectPermissionDenied
  | Unexpected
  | Unsupported
  deriving DecidableEq

/-- Modelled from the spec: the error value of the storage abstraction (the
concrete `Error` type lives outside src/). It carries a kind, a message, and
the operation tag set by `with_operation`; source errors attached with
`set_source` are not modelled. -/
structure Error where
  kind : ErrorKind
  message : String
  operation : Option String
  deriving DecidableEq

/-- Byte strings are lists of byte values. -/
abbrev Bytes := List Nat

/-- Modelled from the spec: `ObjectMetadata` (outside src/) has at minimum a
content length; further attributes (content type, last-modified, etag) are
preserved opaquely by the binary codec, so they are modelled as optional
opaque byte strings. -/
structure ObjectMetadata where
  content_length : Nat
  content_type : Option Bytes
  last_modified : Option Bytes
  etag : Option Bytes
  deriving DecidableEq

/-- Modelled from the spec: one optional opaque attribute in the stable
self-describing binary format (a tag, then a length-prefixed payload). -/
def encodeOptBytes : Option Bytes → List Nat
  | none => [0]
  | some bs => 1 :: bs.length :: bs

/-- Modelled from the spec: decoder for one optional opaque attribute,
returning the decoded value and the remaining input. -/
def decodeOptBytes : List Nat → Option (Option Bytes × List Nat)
  | 0 :: rest => some (none, rest)
  | 1 :: n :: rest =>
    if n ≤ rest.length then some (some (rest.take n), rest.drop n) else none
  | _ => none

/-- Modelled from the spec: `bincode::serde::encode_to_vec` with the standard
configuration, a stable self-describing binary encoding of the metadata:
the content length followed by the three optional attributes. -/
def bincodeEncode (m : ObjectMetadata) : List Nat :=
  m.content_length ::
    (encodeOptBytes m.content_type ++ encodeOptBytes m.last_modified ++
      encodeOptBytes m.etag)

/-- Modelled from the spec: `bincode::serde::decode_from_slice` with the
standard configuration; trailing input is ignored, exactly as the source
discards the returned byte count. -/
def bincodeDecode (bs : List Nat) : Option ObjectMetadata :=
  match bs with
  | [] => none
  | len :: rest =>
    match decodeOptBytes rest with
    | none => none
    | some (ct, r1) =>
      match decodeOptBytes r1 with
      | none => none
      | some (lm, r2) =>
        match decodeOptBytes r2 with
        | none => none
        | some (et, _) => some ⟨len, ct, lm, et⟩

namespace ContentCacheAccessor

/-- `ContentCacheAccessor::encode_metadata` (cache.rs lines 225-231): encode
and map any serializer failure to `Unexpected` tagged
`CacheLayer::encode_metadata`. The modelled encoder is total, so the error
arm never fires. -/
def encode_metadata (m : ObjectMetadata) : Except Error Bytes :=
  match (some (bincodeEncode m) : Option Bytes) with
  | some bs => .ok bs
  | none => .error ⟨.Unexpected, "encode object metadata into cache",
      some "CacheLayer::encode_metadata"⟩

/-- `ContentCacheAccessor::decode_metadata` (cache.rs lines 233-241): decode
and map any failure to `Unexpected` tagged `CacheLayer::decode_metadata`. -/
def decode_metadata (bs : Bytes) : Except Error ObjectMetadata :=
  match bincodeDecode bs with
  | some m => .ok m
  | none => .error ⟨.Unexpected, "decode object metadata from cache",
      some "CacheLayer::decode_metadata"⟩

end ContentCacheAccessor

/-- Range-restricted read of a byte string, the semantics the memory backend
gives to `OpRead` ranges (used by the source's tests): a fully specified
range takes `[offset, offset + size)`, an offset-only range the suffix from
`offset`, a size-only range the last `size` bytes. -/
def applyRange (r : BytesRange) (bs : Bytes) : Bytes :=
  match r.offset, r.size with
  | some o, some s => (bs.drop o).take s
  | some o, none => bs.drop o
  | none, some s => bs.drop (bs.length - s)
  | none, none => bs

/-- The slice computation of `FixedCacheReader::poll_read` on the buffered
chunk bytes (cache.rs lines 401-415), built from `Vec::split_off`. `none`
models a Rust panic: `split_off` panics when the index exceeds the length,
and in the `(None, Some)` arm `bs.len() - size` underflows when `size`
exceeds the buffer length. -/
def sliceBytes (br : BytesRange) (bs : Bytes) : Option Bytes :=
  match br.offset, br.size with
  | some o, some s => if o ≤ bs.length then some ((bs.drop o).take s) else none
  | some o, none => if o ≤ bs.length then some (bs.drop o) else none
  | none, some s => if s ≤ bs.length then some (bs.drop (bs.length - s)) else none
  | none, none => some bs

/-- `format_content_cache_path` (cache.rs lines 323-325). -/
def format_content_cache_path (path : String) (idx : Nat) : String :=
  path ++ ".occ_" ++ toString idx

/-- `format_meta_cache_path` (cache.rs lines 328-330). -/
def format_meta_cache_path (path : String) : String :=
  path ++ ".omc"

/-- The cache store: a memory-backed accessor (as in the source's tests),
plus injected per-key faults so that cache errors other than
`ObjectNotFound` are expressible. -/
structure CacheState where
  entries : List (String × Bytes)
  readFaults : List (String × ErrorKind)
  deleteFaults : List (String × ErrorKind)
  deriving DecidableEq

/-- Cache `read`: an injected fault fires first; otherwise a present entry
is served restricted to the requested range, and a missing entry is
`ObjectNotFound`. -/
def CacheState.read (c : CacheState) (key : String) (range : BytesRange) :
    Except Error Bytes :=
  match c.readFaults.lookup key with
  | some k => .error ⟨k, "injected cache read fault", none⟩
  | none =>
    match c.entries.lookup key with
    | some bs => .ok (applyRange range bs)
    | none => .error ⟨.ObjectNotFound, "object not found", none⟩

/-- Cache `write`: stores the full body at the key (memory semantics). -/
def CacheState.write (c : CacheState) (key : String) (bs : Bytes) : CacheState :=
  { c with entries := (key, bs) :: c.entries }

/-- Cache `delete`: an injected fault fires first; otherwise the entry is
removed (deleting an absent key succeeds, as in the memory backend). -/
def CacheState.delete (c : CacheState) (key : String) : Except Error CacheState :=
  match c.deleteFaults.lookup key with
  | some k => .error ⟨k, "injected cache delete fault", none⟩
  | none => .ok { c with entries := c.entries.filter (fun e => !(e.1 == key)) }

/-- The origin store: a memory-backed accessor, as in the source's tests. -/
abbrev OriginState := List (String × Bytes)

/-- Origin `stat`: metadata of the stored object, `ObjectNotFound` when the
path is absent. -/
def originStatFn (o : OriginState) (path : String) : Except Error ObjectMetadata :=
  match o.lookup path with
  | some bs => .ok ⟨bs.length, none, none, none⟩
  | none => .error ⟨.ObjectNotFound, "object not found", none⟩

/-- Origin `read`: the object's bytes restricted to the requested range,
paired with the content length the response reports for that range. -/
def originReadFn (o : OriginState) (path : String) (range : BytesRange) :
    Except Error (Nat × Bytes) :=
  match o.lookup path with
  | some bs => .ok ((applyRange range bs).length, applyRange range bs)
  | none => .error ⟨.ObjectNotFound, "object not found", none⟩

/-- Origin `create`: creates an empty object at the path. -/
def originCreateFn (o : OriginState) (path : String) : OriginState :=
  (path, []) :: o

/-- Origin `write`: replaces the object's bytes. -/
def originWriteFn (o : OriginState) (path : String) (body : Bytes) : OriginState :=
  (path, body) :: o

/-- Origin `delete`: removes the object. -/
def originDeleteFn (o : OriginState) (path : String) : OriginState :=
  o.filter (fun e => !(e.1 == path))

/-- Observable store operations, in the order the accessor issues them. -/
inductive Event where
  | cacheRead (key : String) (range : BytesRange)
  | cacheWrite (key : String) (declaredLen : Nat)
  | cacheDelete (key : String)
  | originStat (path : String)
  | originRead (path : String) (range : BytesRange)
  | originCreate (path : String)
  | originWrite (path : String)
  | originDelete (path : String)
  deriving DecidableEq

namespace ContentCacheAccessor

/-- `ContentCacheAccessor::stat` (cache.rs lines 138-169). Returns the
result, the cache state afterwards, and the trace of store operations.
The memory cache reader's `read_to_end` cannot fail, so the corresponding
error arm of the source has no counterpart. Note that the miss arm of the
source writes the encoded metadata at `path` itself (cache.rs line 159),
not at `format_meta_cache_path path`. -/
def stat (origin : OriginState) (cache : CacheState) (path : String) :
    Except Error ObjectMetadata × CacheState × List Event :=
  match CacheState.read cache (format_meta_cache_path path) ⟨none, none⟩ with
  | .ok bs =>
    match decode_metadata bs with
    | .ok meta => (.ok meta, cache,
        [.cacheRead (format_meta_cache_path path) ⟨none, none⟩])
    | .error e => (.error e, cache,
        [.cacheRead (format_meta_cache_path path) ⟨none, none⟩])
  | .error err =>
    if err.kind = .ObjectNotFound then
      match originStatFn origin path with
      | .error e2 => (.error e2, cache,
          [.cacheRead (format_meta_cache_path path) ⟨none, none⟩, .originStat path])
      | .ok meta =>
        match encode_metadata meta with
        | .error e2 => (.error e2, cache,
            [.cacheRead (format_meta_cache_path path) ⟨none, none⟩, .originStat path])
        | .ok bs =>
          (.ok meta, CacheState.write cache path bs,
            [.cacheRead (format_meta_cache_path path) ⟨none, none⟩, .originStat path,
             .cacheWrite path bs.length])
    else
      (originStatFn origin path, cache,
        [.cacheRead (format_meta_cache_path path) ⟨none, none⟩, .originStat path])

/-- `ContentCacheAccessor::create` (cache.rs lines 117-122): delete the
metadata cache entry, propagating a failure with `?` before the origin
create is issued. -/
def create (origin : OriginState) (cache : CacheState) (path : String) :
    Except Error Unit × OriginState × CacheState × List Event :=
  match CacheState.delete cache (format_meta_cache_path path) with
  | .error e => (.error e, origin, cache,
      [.cacheDelete (format_meta_cache_path path)])
  | .ok c2 => (.ok (), originCreateFn origin path, c2,
      [.cacheDelete (format_meta_cache_path path), .originCreate path])

/-- `ContentCacheAccessor::write` (cache.rs lines 131-136): delete the
metadata cache entry, propagating a failure with `?` before the origin
write is issued. -/
def write (origin : OriginState) (cache : CacheState) (path : String)
    (body : Bytes) :
    Except Error Unit × OriginState × CacheState × List Event :=
  match CacheState.delete cache (format_meta_cache_path path) with
  | .error e => (.error e, origin, cache,
      [.cacheDelete (format_meta_cache_path path)])
  | .ok c2 => (.ok (), originWriteFn origin path body, c2,
      [.cacheDelete (format_meta_cache_path path), .originWrite path])

/-- `ContentCacheAccessor::delete` (cache.rs lines 171-176): delete the
metadata cache entry, propagating a failure with `?` before the origin
delete is issued. -/
def delete (origin : OriginState) (cache : CacheState) (path : String) :
    Except Error Unit × OriginState × CacheState × List Event :=
  match CacheState.delete cache (format_meta_cache_path path) with
  | .error e => (.error e, origin, cache,
      [.cacheDelete (format_meta_cache_path path)])
  | .ok c2 => (.ok (), originDeleteFn origin path, c2,
      [.cacheDelete (format_meta_cache_path path), .originDelete path])

/-- `ContentCacheAccessor::new_whole_cache_reader` (cache.rs lines 181-197).
A reader is modelled by the pair of its reported content length and the
bytes it streams. -/
def new_whole_cache_reader (origin : OriginState) (cache : CacheState)
    (path : String) (args : BytesRange) :
    Except Error (Nat × Bytes) × CacheState × List Event :=
  match CacheState.read cache path args with
  | .ok bs => (.ok (bs.length, bs), cache, [.cacheRead path args])
  | .error err =>
    if err.kind = .ObjectNotFound then
      match originReadFn origin path ⟨none, none⟩ with
      | .error e2 => (.error e2, cache,
          [.cacheRead path args, .originRead path ⟨none, none⟩])
      | .ok (len, body) =>
        (match CacheState.read (CacheState.write cache path body) path args with
         | .ok bs2 => .ok (bs2.length, bs2)
         | .error e3 => .error e3,
         CacheState.write cache path body,
         [.cacheRead path args, .originRead path ⟨none, none⟩,
          .cacheWrite path len, .cacheRead path args])
    else (.error err, cache, [.cacheRead path args])

end ContentCacheAccessor

/-- The chunk-load future built in the `Iterating` arm of
`FixedCacheReader::poll_read` (cache.rs lines 373-425): try the cache at the
chunk key restricted to the intra-chunk range; on `ObjectNotFound`, read the
whole aligned chunk from origin, buffer it, write it to the cache at the
chunk key with the origin-reported length, then slice the intra-chunk range
out of the buffer. The result is the reported length and streamed bytes;
the outer `none` models a Rust panic in the slice step. -/
def FixedCacheReader.fetch (origin : OriginState) (cache : CacheState)
    (path : String) (idx : Nat) (cache_range total_range : BytesRange) :
    Option (Except Error (Nat × Bytes) × CacheState × List Event) :=
  match CacheState.read cache (format_content_cache_path path idx) cache_range with
  | .ok bs => some (.ok (bs.length, bs), cache,
      [.cacheRead (format_content_cache_path path idx) cache_range])
  | .error err =>
    if err.kind = .ObjectNotFound then
      match originReadFn origin path total_range with
      | .error e2 => some (.error e2, cache,
          [.cacheRead (format_content_cache_path path idx) cache_range,
           .originRead path total_range])
      | .ok (sz, bs) =>
        match sliceBytes cache_range bs with
        | none => none
        | some out => some (.ok (out.length, out),
            CacheState.write cache (format_content_cache_path path idx) bs,
            [.cacheRead (format_content_cache_path path idx) cache_range,
             .originRead path total_range,
             .cacheWrite (format_content_cache_path path idx) sz])
    else some (.error err, cache,
      [.cacheRead (format_content_cache_path path idx) cache_range])

namespace FixedCacheRangeIterator

theorem cache_range_eq (it : FixedCacheRangeIterator) :
    it.cache_range =
      rangeOf (it.cur % it.step)
        (min it.step (it.cur % it.step + (it.offset + it.size - it.cur))) := by
  unfold cache_range rangeOf
  split <;>
    · simp only [BytesRange.mk.injEq, Option.some.injEq, true_and]
      omega

theorem cache_range_size (it : FixedCacheRangeIterator) :
    it.cache_range.size =
      some (min it.step (it.cur % it.step + (it.offset + it.size - it.cur)) -
        it.cur % it.step) := by
  rw [cache_range_eq]; rfl

theorem cache_range_offset (it : FixedCacheRangeIterator) :
    it.cache_range.offset = some (it.cur % it.step) := by
  rw [cache_range_eq]; rfl

theorem cache_range_advance_pos (it : FixedCacheRangeIterator)
    (hstep : 0 < it.step) (hcur : it.cur < it.offset + it.size) :
    0 < it.cache_range.size.getD 0 := by
  rw [cache_range_size]
  have hmod : it.cur % it.step < it.step := Nat.mod_lt _ hstep
  simp only [Option.getD_some]
  omega

theorem cache_range_advance_le (it : FixedCacheRangeIterator) :
    it.cache_range.size.getD 0 ≤ it.offset + it.size - it.cur := by
  rw [cache_range_size]
  simp only [Option.getD_some]
  omega

theorem next_none_iff (it : FixedCacheRangeIterator) :
    it.next = none ↔ it.offset + it.size ≤ it.cur := by
  unfold next
  split <;> simp [*]

theorem next_eq_spec (it : FixedCacheRangeIterator)
    (hcur : it.cur < it.offset + it.size) :
    it.next = some
      ((it.cur / it.step,
        rangeOf (it.cur % it.step)
          (min it.step (it.cur % it.step + (it.offset + it.size - it.cur))),
        rangeOf (it.step * (it.cur / it.step)) (it.step * (it.cur / it.step + 1))),
       ⟨it.offset, it.size, it.step,
        it.cur + (min it.step (it.cur % it.step + (it.offset + it.size - it.cur)) -
          it.cur % it.step)⟩) := by
  unfold next
  rw [if_neg (by omega)]
  rw [cache_range_eq]
  simp [cache_index, total_range, rangeOf]

theorem next_some_fields (it : FixedCacheRangeIterator)
    (t : Nat × BytesRange × BytesRange) (it2 : FixedCacheRangeIterator)
    (h : it.next = some (t, it2)) :
    it.cur < it.offset + it.size ∧
      t = (it.cache_index, it.cache_range, it.total_range) ∧
      it2 = { it with cur := it.cur + it.cache_range.size.getD 0 } := by
  unfold next at h
  split at h
  · exact absurd h (by simp)
  · next hc =>
    injection h with h1
    injection h1 with ht hit2
    exact ⟨by omega, ht.symm, hit2.symm⟩

theorem sum_intraSize_collectAux (fuel : Nat) :
    ∀ it : FixedCacheRangeIterator, 0 < it.step →
      it.cur ≤ it.offset + it.size →
      it.offset + it.size - it.cur ≤ fuel →
      ((collectAux fuel it).map intraSize).sum = it.offset + it.size - it.cur := by
  induction fuel with
  | zero =>
    intro it _ _ h3
    simp only [collectAux, List.map_nil, List.sum_nil]
    omega
  | succ n ih =>
    intro it h1 h2 h3
    rcases h : it.next with _ | ⟨t, it2⟩
    · simp only [collectAux, h, List.map_nil, List.sum_nil]
      rw [next_none_iff] at h
      omega
    · obtain ⟨hcur, ht, hit2⟩ := next_some_fields it t it2 h
      have hpos := cache_range_advance_pos it h1 hcur
      have hle := cache_range_advance_le it
      have hsum := ih it2 (by rw [hit2]; exact h1)
        (by rw [hit2]; simp only; omega)
        (by rw [hit2]; simp only; omega)
      simp only [collectAux, h, List.map_cons, List.sum_cons, hsum, ht, intraSize]
      rw [hit2]
      simp only
      omega

theorem length_collectAux (fuel : Nat) :
    ∀ it : FixedCacheRangeIterator, 0 < it.step →
      (collectAux fuel it).length ≤ it.offset + it.size - it.cur := by
  induction fuel with
  | zero =>
    intro it _
    simp [collectAux]
  | succ n ih =>
    intro it h1
    rcases h : it.next with _ | ⟨t, it2⟩
    · simp [collectAux, h]
    · obtain ⟨hcur, _, hit2⟩ := next_some_fields it t it2 h
      subst hit2
      have hpos := cache_range_advance_pos it h1 hcur
      have hle := cache_range_advance_le it
      have hrec := ih { it with cur := it.cur + it.cache_range.size.getD 0 } h1
      simp only at hrec
      simp only [collectAux, h, List.length_cons]
      omega

theorem collectAux_of_next_none (fuel : Nat) (it : FixedCacheRangeIterator)
    (h : it.next = none) : collectAux fuel it = [] := by
  cases fuel <;> simp [collectAux, h]

end FixedCacheRangeIterator

/-- C2: for every `(offset, size, step)` with `step > 0`, each yielded triple
has `chunk_index = cur / step`,
`intra_chunk_range = [cur % step, min step (cur % step + (offset + size - cur)))`,
`origin_chunk_range = [step * chunk_index, step * (chunk_index + 1))`, and `cur`
advances by the length of the intra-chunk range; and the five concrete
scenarios of the spec yield exactly the listed triples. -/
theorem claim_c2_partitioner_formulas :
    (∀ it : FixedCacheRangeIterator, 0 < it.step → it.cur < it.offset + it.size →
      it.next = some
        ((it.cur / it.step,
          rangeOf (it.cur % it.step)
            (min it.step (it.cur % it.step + (it.offset + it.size - it.cur))),
          rangeOf (it.step * (it.cur / it.step)) (it.step * (it.cur / it.step + 1))),
         ⟨it.offset, it.size, it.step,
          it.cur + (min it.step (it.cur % it.step + (it.offset + it.size - it.cur)) -
            it.cur % it.step)⟩))
    ∧ (FixedCacheRangeIterator.new 0 1 1000).collect =
        [(0, rangeOf 0 1, rangeOf 0 1000)]
    ∧ (FixedCacheRangeIterator.new 900 1 1000).collect =
        [(0, rangeOf 900 901, rangeOf 0 1000)]
    ∧ (FixedCacheRangeIterator.new 900 100 1000).collect =
        [(0, rangeOf 900 1000, rangeOf 0 1000)]
    ∧ (FixedCacheRangeIterator.new 900 101 1000).collect =
        [(0, rangeOf 900 1000, rangeOf 0 1000), (1, rangeOf 0 1, rangeOf 1000 2000)]
    ∧ (FixedCacheRangeIterator.new 1001 1 1000).collect =
        [(1, rangeOf 1 2, rangeOf 1000 2000)] :=
  ⟨fun it _ hcur => FixedCacheRangeIterator.next_eq_spec it hcur,
   by decide, by decide, by decide, by decide, by decide⟩

/-- Witness for C2: the formula instantiated on the first chunk of the
"two parts" scenario `(offset, size, step) = (900, 101, 1000)`. -/
theorem claim_c2_partitioner_formulas_witness :
    (FixedCacheRangeIterator.new 900 101 1000).next = some
      ((900 / 1000,
        rangeOf (900 % 1000) (min 1000 (900 % 1000 + (900 + 101 - 900))),
        rangeOf (1000 * (900 / 1000)) (1000 * (900 / 1000 + 1))),
       ⟨900, 101, 1000,
        900 + (min 1000 (900 % 1000 + (900 + 101 - 900)) - 900 % 1000)⟩) :=
  claim_c2_partitioner_formulas.1 (FixedCacheRangeIterator.new 900 101 1000)
    (by decide) (by decide)

/-- C4: for every `(offset, size, step)` with `step > 0`, the intra-chunk
range lengths of the partitioner output sum to `size`, and `size = 0`
produces the empty sequence. -/
theorem claim_c4_partitioner_sum :
    ∀ offset size step : Nat, 0 < step →
      (((FixedCacheRangeIterator.new offset size step).collect.map intraSize).sum = size
        ∧ (FixedCacheRangeIterator.new offset 0 step).collect = []) := by
  intro offset size step hstep
  constructor
  · have h2 := FixedCacheRangeIterator.sum_intraSize_collectAux (offset + size)
      (FixedCacheRangeIterator.new offset size step) hstep
      (by simp [FixedCacheRangeIterator.new]) (by simp [FixedCacheRangeIterator.new])
    simpa [FixedCacheRangeIterator.collect, FixedCacheRangeIterator.new] using h2
  · exact FixedCacheRangeIterator.collectAux_of_next_none _ _
      ((FixedCacheRangeIterator.next_none_iff _).mpr
        (by simp [FixedCacheRangeIterator.new]))

/-- Witness for C4 at the "two parts" scenario `(900, 101, 1000)`. -/
theorem claim_c4_partitioner_sum_witness :
    ((FixedCacheRangeIterator.new 900 101 1000).collect.map intraSize).sum = 101
      ∧ (FixedCacheRangeIterator.new 900 0 1000).collect = [] :=
  claim_c4_partitioner_sum 900 101 1000 (by decide)

/-- C10: `next` returns `none` exactly when `cur ≥ offset + size`; every
yield strictly increases `cur`; and for `step > 0` the whole output is
finite with at most `size` triples. -/
theorem claim_c10_partitioner_termination :
    (∀ it : FixedCacheRangeIterator, it.next = none ↔ it.offset + it.size ≤ it.cur)
    ∧ (∀ (it : FixedCacheRangeIterator) (t : Nat × BytesRange × BytesRange)
        (it2 : FixedCacheRangeIterator),
        0 < it.step → it.next = some (t, it2) → it.cur < it2.cur)
    ∧ (∀ offset size step : Nat, 0 < step →
        ((FixedCacheRangeIterator.new offset size step).collect).length ≤ size) := by
  refine ⟨FixedCacheRangeIterator.next_none_iff, ?_, ?_⟩
  · intro it t it2 hstep h
    obtain ⟨hcur, _, hit2⟩ := FixedCacheRangeIterator.next_some_fields it t it2 h
    subst hit2
    have hpos := FixedCacheRangeIterator.cache_range_advance_pos it hstep hcur
    simp only
    omega
  · intro offset size step hstep
    have h2 := FixedCacheRangeIterator.length_collectAux (offset + size)
      (FixedCacheRangeIterator.new offset size step) hstep
    simpa [FixedCacheRangeIterator.collect, FixedCacheRangeIterator.new] using h2

/-- Witness for C10: the finiteness bound at `(900, 101, 1000)`. -/
theorem claim_c10_partitioner_termination_witness :
    ((FixedCacheRangeIterator.new 900 101 1000).collect).length ≤ 101 :=
  claim_c10_partitioner_termination.2.2 900 101 1000 (by decide)

theorem decodeOptBytes_encodeOptBytes (o : Option Bytes) (r : List Nat) :
    decodeOptBytes (encodeOptBytes o ++ r) = some (o, r) := by
  cases o with
  | none => rfl
  | some bs =>
    simp only [encodeOptBytes, List.cons_append, decodeOptBytes]
    rw [if_pos (by simp)]
    simp [List.take_left, List.drop_left]

theorem decodeOptBytes_encodeOptBytes_nil (o : Option Bytes) :
    decodeOptBytes (encodeOptBytes o) = some (o, []) := by
  simpa using decodeOptBytes_encodeOptBytes o []

theorem bincode_roundtrip (m : ObjectMetadata) :
    bincodeDecode (bincodeEncode m) = some m := by
  simp only [bincodeEncode, bincodeDecode, List.append_assoc,
    decodeOptBytes_encodeOptBytes, decodeOptBytes_encodeOptBytes_nil]

theorem sliceBytes_cache_range (it : FixedCacheRangeIterator) (bs : Bytes)
    (hoff : it.cur % it.step ≤ bs.length) :
    sliceBytes it.cache_range bs =
      some ((bs.drop (it.cur % it.step)).take (it.cache_range.size.getD 0)) := by
  rw [FixedCacheRangeIterator.cache_range_eq]
  simp [sliceBytes, rangeOf, hoff]

theorem applyRange_total_range (it : FixedCacheRangeIterator) (obj : Bytes) :
    applyRange it.total_range obj =
      (obj.drop (it.step * (it.cur / it.step))).take it.step := by
  simp [applyRange, FixedCacheRangeIterator.total_range, rangeOf, Nat.mul_succ]

theorem applyRange_total_range_length (it : FixedCacheRangeIterator) (obj : Bytes) :
    (applyRange it.total_range obj).length =
      min it.step (obj.length - it.step * (it.cur / it.step)) := by
  rw [applyRange_total_range]
  simp [List.length_take, List.length_drop]

theorem mod_le_chunkLen (it : FixedCacheRangeIterator) (obj : Bytes)
    (hstep : 0 < it.step) (hcur : it.cur < it.offset + it.size)
    (hbound : it.offset + it.size ≤ obj.length) :
    it.cur % it.step ≤ (applyRange it.total_range obj).length := by
  rw [applyRange_total_range_length]
  have h1 := Nat.mod_add_div it.cur it.step
  have h2 : it.cur % it.step < it.step := Nat.mod_lt _ hstep
  omega

/-- C9: the partitioner's intra-chunk range always has both endpoints
specified, so the chunk-miss slice takes the fully specified branch; when
the requested range lies within the object (so a buffered aligned chunk has
length `min step (L - step * chunk_index)`), the slice never panics; and
the partially specified `(None, Some)` branch would indeed panic whenever
`size` exceeds the buffer length. -/
theorem claim_c9_slice_safety :
    (∀ it : FixedCacheRangeIterator,
      (it.cache_range).offset = some (it.cur % it.step)
        ∧ (it.cache_range).size.isSome = true)
    ∧ (∀ (it : FixedCacheRangeIterator) (bs : Bytes) (L : Nat),
        0 < it.step → it.cur < it.offset + it.size → it.offset + it.size ≤ L →
        bs.length = min it.step (L - it.step * (it.cur / it.step)) →
        (sliceBytes it.cache_range bs).isSome = true)
    ∧ (∀ (s : Nat) (bs : Bytes), bs.length < s →
        sliceBytes ⟨none, some s⟩ bs = none) := by
  refine ⟨?_, ?_, ?_⟩
  · intro it
    refine ⟨FixedCacheRangeIterator.cache_range_offset it, ?_⟩
    rw [FixedCacheRangeIterator.cache_range_size]
    rfl
  · intro it bs L h1 h2 h3 h4
    have hoff : it.cur % it.step ≤ bs.length := by
      rw [h4]
      have h5 := Nat.mod_add_div it.cur it.step
      have h6 : it.cur % it.step < it.step := Nat.mod_lt _ h1
      omega
    rw [sliceBytes_cache_range it bs hoff]
    rfl
  · intro s bs h
    simp only [sliceBytes]
    rw [if_neg (by omega)]

/-- Witness for C9: slice safety on the single chunk of
`(offset, size, step) = (0, 1, 1000)` over a one-byte object. -/
theorem claim_c9_slice_safety_witness :
    (sliceBytes (FixedCacheRangeIterator.cache_range ⟨0, 1, 1000, 0⟩) [5]).isSome
      = true :=
  claim_c9_slice_safety.2.1 ⟨0, 1, 1000, 0⟩ [5] 1 (by decide) (by decide)
    (by decide) (by decide)

/-- C3: when a fixed-strategy chunk read misses (the cache read at
`"<path>.occ_<idx>"` returns `ObjectNotFound`) and the requested range lies
within the object, the miss path reads the full aligned chunk from the
origin, then writes it to the cache at the chunk key declaring exactly the
origin content length of that chunk, and only then returns the intra-chunk
slice of the buffered bytes for streaming; afterwards the cache holds the
chunk entry. The event trace shows the cache write after the origin read
and before the slice is handed back. -/
theorem claim_c3_chunk_miss_writeback :
    ∀ (origin : OriginState) (cache : CacheState) (path : String)
      (it : FixedCacheRangeIterator) (obj : Bytes) (e : Error),
      0 < it.step → it.cur < it.offset + it.size →
      it.offset + it.size ≤ obj.length →
      origin.lookup path = some obj →
      CacheState.read cache (format_content_cache_path path it.cache_index)
        it.cache_range = .error e →
      e.kind = .ObjectNotFound →
      (FixedCacheReader.fetch origin cache path it.cache_index it.cache_range
          it.total_range =
        some (.ok
            ((((applyRange it.total_range obj).drop (it.cur % it.step)).take
                (it.cache_range.size.getD 0)).length,
             ((applyRange it.total_range obj).drop (it.cur % it.step)).take
                (it.cache_range.size.getD 0)),
          CacheState.write cache (format_content_cache_path path it.cache_index)
            (applyRange it.total_range obj),
          [.cacheRead (format_content_cache_path path it.cache_index) it.cache_range,
           .originRead path it.total_range,
           .cacheWrite (format_content_cache_path path it.cache_index)
             (applyRange it.total_range obj).length]))
      ∧ (applyRange it.total_range obj).length =
          min it.step (obj.length - it.step * it.cache_index)
      ∧ (CacheState.write cache (format_content_cache_path path it.cache_index)
            (applyRange it.total_range obj)).entries.lookup
          (format_content_cache_path path it.cache_index) =
          some (applyRange it.total_range obj) := by
  intro origin cache path it obj e hstep hcur hbound horigin hread hkind
  refine ⟨?_, ?_, ?_⟩
  · have hoff := mod_le_chunkLen it obj hstep hcur hbound
    unfold FixedCacheReader.fetch
    simp only [hread]
    rw [if_pos hkind]
    unfold originReadFn
    rw [horigin]
    simp only [sliceBytes_cache_range _ _ hoff]
  · simpa [FixedCacheRangeIterator.cache_index] using
      applyRange_total_range_length it obj
  · simp [CacheState.write, List.lookup]

/-- Witness for C3: a miss of chunk 0 with `(offset, size, step) = (0, 1, 2)`
over the three-byte object at path `p`, starting from an empty cache. -/
theorem claim_c3_chunk_miss_writeback_witness :
    (FixedCacheReader.fetch [("p", [10, 11, 12])] ⟨[], [], []⟩ "p"
        (FixedCacheRangeIterator.cache_index ⟨0, 1, 2, 0⟩)
        (FixedCacheRangeIterator.cache_range ⟨0, 1, 2, 0⟩)
        (FixedCacheRangeIterator.total_range ⟨0, 1, 2, 0⟩) =
      some (.ok
          ((((applyRange (FixedCacheRangeIterator.total_range ⟨0, 1, 2, 0⟩)
                [10, 11, 12]).drop ((0 : Nat) % 2)).take
              ((FixedCacheRangeIterator.cache_range ⟨0, 1, 2, 0⟩).size.getD 0)).length,
           ((applyRange (FixedCacheRangeIterator.total_range ⟨0, 1, 2, 0⟩)
                [10, 11, 12]).drop ((0 : Nat) % 2)).take
              ((FixedCacheRangeIterator.cache_range ⟨0, 1, 2, 0⟩).size.getD 0)),
        CacheState.write ⟨[], [], []⟩
          (format_content_cache_path "p" (FixedCacheRangeIterator.cache_index ⟨0, 1, 2, 0⟩))
          (applyRange (FixedCacheRangeIterator.total_range ⟨0, 1, 2, 0⟩) [10, 11, 12]),
        [.cacheRead (format_content_cache_path "p"
            (FixedCacheRangeIterator.cache_index ⟨0, 1, 2, 0⟩))
            (FixedCacheRangeIterator.cache_range ⟨0, 1, 2, 0⟩),
         .originRead "p" (FixedCacheRangeIterator.total_range ⟨0, 1, 2, 0⟩),
         .cacheWrite (format_content_cache_path "p"
            (FixedCacheRangeIterator.cache_index ⟨0, 1, 2, 0⟩))
            (applyRange (FixedCacheRangeIterator.total_range ⟨0, 1, 2, 0⟩)
              [10, 11, 12]).length]))
    ∧ (applyRange (FixedCacheRangeIterator.total_range ⟨0, 1, 2, 0⟩)
          [10, 11, 12]).length =
        min 2 ([10, 11, 12].length - 2 * FixedCacheRangeIterator.cache_index ⟨0, 1, 2, 0⟩)
    ∧ (CacheState.write ⟨[], [], []⟩
          (format_content_cache_path "p" (FixedCacheRangeIterator.cache_index ⟨0, 1, 2, 0⟩))
          (applyRange (FixedCacheRangeIterator.total_range ⟨0, 1, 2, 0⟩)
            [10, 11, 12])).entries.lookup
        (format_content_cache_path "p" (FixedCacheRangeIterator.cache_index ⟨0, 1, 2, 0⟩)) =
        some (applyRange (FixedCacheRangeIterator.total_range ⟨0, 1, 2, 0⟩) [10, 11, 12]) :=
  claim_c3_chunk_miss_writeback [("p", [10, 11, 12])] ⟨[], [], []⟩ "p"
    ⟨0, 1, 2, 0⟩ [10, 11, 12] ⟨.ObjectNotFound, "object not found", none⟩
    (by decide) (by decide) (by decide) (by rfl) (by rfl) (by rfl)

/-- C5: any cache error other than `ObjectNotFound` during stat makes stat
return the direct origin stat result; the cache error is not surfaced, the
cache state is unchanged, and no further cache operation is issued. -/
theorem claim_c5_stat_degrades_silently :
    ∀ (origin : OriginState) (cache : CacheState) (path : String) (e : Error),
      CacheState.read cache (format_meta_cache_path path) ⟨none, none⟩ = .error e →
      e.kind ≠ .ObjectNotFound →
      ContentCacheAccessor.stat origin cache path =
        (originStatFn origin path, cache,
         [.cacheRead (format_meta_cache_path path) ⟨none, none⟩,
          .originStat path]) := by
  intro origin cache path e h hk
  unfold ContentCacheAccessor.stat
  simp only [h]
  rw [if_neg hk]

/-- Witness for C5: an injected `Unexpected` cache fault on `"p.omc"`. -/
theorem claim_c5_stat_degrades_silently_witness :
    ContentCacheAccessor.stat [("p", [1])]
        ⟨[], [("p.omc", .Unexpected)], []⟩ "p" =
      (originStatFn [("p", [1])] "p", ⟨[], [("p.omc", .Unexpected)], []⟩,
       [.cacheRead (format_meta_cache_path "p") ⟨none, none⟩,
        .originStat "p"]) :=
  claim_c5_stat_degrades_silently [("p", [1])]
    ⟨[], [("p.omc", .Unexpected)], []⟩ "p"
    ⟨.Unexpected, "injected cache read fault", none⟩ (by rfl) (by decide)

/-- C6: decoding the encoding of any metadata value returns the same value,
and every encode or decode failure is an `Unexpected` error tagged
`CacheLayer::encode_metadata` or `CacheLayer::decode_metadata`
respectively. -/
theorem claim_c6_metadata_roundtrip :
    (∀ m : ObjectMetadata,
      ContentCacheAccessor.encode_metadata m = .ok (bincodeEncode m)
        ∧ ContentCacheAccessor.decode_metadata (bincodeEncode m) = .ok m)
    ∧ (∀ (m : ObjectMetadata) (e : Error),
        ContentCacheAccessor.encode_metadata m = .error e →
        e.kind = .Unexpected ∧ e.operation = some "CacheLayer::encode_metadata")
    ∧ (∀ (bs : Bytes) (e : Error),
        ContentCacheAccessor.decode_metadata bs = .error e →
        e.kind = .Unexpected ∧ e.operation = some "CacheLayer::decode_metadata") := by
  refine ⟨?_, ?_, ?_⟩
  · intro m
    exact ⟨rfl, by simp [ContentCacheAccessor.decode_metadata, bincode_roundtrip]⟩
  · intro m e h
    exact absurd h (by simp [ContentCacheAccessor.encode_metadata])
  · intro bs e h
    unfold ContentCacheAccessor.decode_metadata at h
    cases hd : bincodeDecode bs with
    | some m => rw [hd] at h; exact absurd h (by simp)
    | none =>
      rw [hd] at h
      injection h with h1
      rw [← h1]
      exact ⟨rfl, rfl⟩

/-- Witness for C6: the round trip on a concrete metadata value and the
decode error tag on the empty byte string. -/
theorem claim_c6_metadata_roundtrip_witness :
    ContentCacheAccessor.decode_metadata
        (bincodeEncode ⟨13, some [1, 2], none, some [9]⟩) =
      .ok ⟨13, some [1, 2], none, some [9]⟩
    ∧ (⟨ErrorKind.Unexpected, "decode object metadata from cache",
        some "CacheLayer::decode_metadata"⟩ : Error).kind = ErrorKind.Unexpected
    ∧ (⟨ErrorKind.Unexpected, "decode object metadata from cache",
        some "CacheLayer::decode_metadata"⟩ : Error).operation =
      some "CacheLayer::decode_metadata" :=
  ⟨(claim_c6_metadata_roundtrip.1 ⟨13, some [1, 2], none, some [9]⟩).2,
   claim_c6_metadata_roundtrip.2.2 []
     ⟨ErrorKind.Unexpected, "decode object metadata from cache",
       some "CacheLayer::decode_metadata"⟩ (by rfl)⟩

/-- C7: for each of create, write and delete, the delete of the metadata
cache entry `"<path>.omc"` is issued first; when it fails, the origin
operation is not invoked and the cache error is returned, and when it
succeeds, the origin operation follows it in the trace. -/
theorem claim_c7_invalidate_before_origin :
    (∀ (origin : OriginState) (cache : CacheState) (path : String) (e : Error),
      CacheState.delete cache (format_meta_cache_path path) = .error e →
      ContentCacheAccessor.create origin cache path =
        (.error e, origin, cache, [.cacheDelete (format_meta_cache_path path)]))
    ∧ (∀ (origin : OriginState) (cache : CacheState) (path : String)
        (c2 : CacheState),
        CacheState.delete cache (format_meta_cache_path path) = .ok c2 →
        ContentCacheAccessor.create origin cache path =
          (.ok (), originCreateFn origin path, c2,
           [.cacheDelete (format_meta_cache_path path), .originCreate path]))
    ∧ (∀ (origin : OriginState) (cache : CacheState) (path : String)
        (body : Bytes) (e : Error),
        CacheState.delete cache (format_meta_cache_path path) = .error e →
        ContentCacheAccessor.write origin cache path body =
          (.error e, origin, cache, [.cacheDelete (format_meta_cache_path path)]))
    ∧ (∀ (origin : OriginState) (cache : CacheState) (path : String)
        (body : Bytes) (c2 : CacheState),
        CacheState.delete cache (format_meta_cache_path path) = .ok c2 →
        ContentCacheAccessor.write origin cache path body =
          (.ok (), originWriteFn origin path body, c2,
           [.cacheDelete (format_meta_cache_path path), .originWrite path]))
    ∧ (∀ (origin : OriginState) (cache : CacheState) (path : String) (e : Error),
        CacheState.delete cache (format_meta_cache_path path) = .error e →
        ContentCacheAccessor.delete origin cache path =
          (.error e, origin, cache, [.cacheDelete (format_meta_cache_path path)]))
    ∧ (∀ (origin : OriginState) (cache : CacheState) (path : String)
        (c2 : CacheState),
        CacheState.delete cache (format_meta_cache_path path) = .ok c2 →
        ContentCacheAccessor.delete origin cache path =
          (.ok (), originDeleteFn origin path, c2,
           [.cacheDelete (format_meta_cache_path path), .originDelete path])) := by
  refine ⟨?_, ?_, ?_, ?_, ?_, ?_⟩
  · intro origin cache path e h
    unfold ContentCacheAccessor.create
    simp only [h]
  · intro origin cache path c2 h
    unfold ContentCacheAccessor.create
    simp only [h]
  · intro origin cache path body e h
    unfold ContentCacheAccessor.write
    simp only [h]
  · intro origin cache path body c2 h
    unfold ContentCacheAccessor.write
    simp only [h]
  · intro origin cache path e h
    unfold ContentCacheAccessor.delete
    simp only [h]
  · intro origin cache path c2 h
    unfold ContentCacheAccessor.delete
    simp only [h]

/-- Witness for C7: an injected cache delete fault on `"p.omc"` makes
create fail without reaching the origin. -/
theorem claim_c7_invalidate_before_origin_witness :
    ContentCacheAccessor.create [("q", [1])]
        ⟨[], [], [("p.omc", .Unexpected)]⟩ "p" =
      (.error ⟨.Unexpected, "injected cache delete fault", none⟩,
       [("q", [1])], ⟨[], [], [("p.omc", .Unexpected)]⟩,
       [.cacheDelete (format_meta_cache_path "p")]) :=
  claim_c7_invalidate_before_origin.1 [("q", [1])]
    ⟨[], [], [("p.omc", .Unexpected)]⟩ "p"
    ⟨.Unexpected, "injected cache delete fault", none⟩ (by rfl)

/-- C8: under the Whole strategy, a cache lookup that returns
`ObjectNotFound` triggers an origin read with an unrestricted range, a cache
write of the whole body at the object's key declaring the origin-reported
content length, and a re-issued cache read with the caller's original
arguments whose result is returned; any cache error of another kind is
propagated unchanged with no further store operation. -/
theorem claim_c8_whole_strategy :
    (∀ (origin : OriginState) (cache : CacheState) (path : String)
      (args : BytesRange) (obj : Bytes) (e : Error),
      CacheState.read cache path args = .error e → e.kind = .ObjectNotFound →
      origin.lookup path = some obj →
      ContentCacheAccessor.new_whole_cache_reader origin cache path args =
        ((match CacheState.read (CacheState.write cache path obj) path args with
          | .ok bs2 => .ok (bs2.length, bs2)
          | .error e3 => .error e3),
         CacheState.write cache path obj,
         [.cacheRead path args, .originRead path ⟨none, none⟩,
          .cacheWrite path obj.length, .cacheRead path args]))
    ∧ (∀ (origin : OriginState) (cache : CacheState) (path : String)
        (args : BytesRange) (e : Error),
        CacheState.read cache path args = .error e → e.kind ≠ .ObjectNotFound →
        ContentCacheAccessor.new_whole_cache_reader origin cache path args =
          (.error e, cache, [.cacheRead path args])) := by
  constructor
  · intro origin cache path args obj e hread hkind horigin
    unfold ContentCacheAccessor.new_whole_cache_reader
    simp only [hread]
    rw [if_pos hkind]
    unfold originReadFn
    rw [horigin]
    simp [applyRange]
  · intro origin cache path args e hread hkind
    unfold ContentCacheAccessor.new_whole_cache_reader
    simp only [hread]
    rw [if_neg hkind]

/-- Witness for C8: a whole-strategy miss at path `p` with range `[1, 3)`
over a three-byte origin object and an empty cache. -/
theorem claim_c8_whole_strategy_witness :
    ContentCacheAccessor.new_whole_cache_reader [("p", [1, 2, 3])]
        ⟨[], [], []⟩ "p" (rangeOf 1 3) =
      ((match CacheState.read (CacheState.write ⟨[], [], []⟩ "p" [1, 2, 3]) "p"
            (rangeOf 1 3) with
        | .ok bs2 => .ok (bs2.length, bs2)
        | .error e3 => .error e3),
       CacheState.write ⟨[], [], []⟩ "p" [1, 2, 3],
       [.cacheRead "p" (rangeOf 1 3), .originRead "p" ⟨none, none⟩,
        .cacheWrite "p" ([1, 2, 3] : Bytes).length, .cacheRead "p" (rangeOf 1 3)]) :=
  claim_c8_whole_strategy.1 [("p", [1, 2, 3])] ⟨[], [], []⟩ "p" (rangeOf 1 3)
    [1, 2, 3] ⟨.ObjectNotFound, "object not found", none⟩ (by rfl) (by rfl) (by rfl)

/-- C1 (refuted, code bug): on a metadata cache miss, the source writes the
encoded metadata at the key `path` itself (cache.rs line 159) instead of at
`format_meta_cache_path path`. Starting from an empty cache and an origin
whose object `p` has three bytes: after one stat, the cache has no entry at
`"p.omc"` but holds the encoded metadata at `"p"`; the stat's trace shows
the write at `"p"`; and a second stat misses again and stats the origin a
second time, contradicting the claim that a subsequent stat is served from
the cache without invoking the origin. -/
theorem claim_c1_meta_write_key :
    ((ContentCacheAccessor.stat [("p", [7, 7, 7])] ⟨[], [], []⟩ "p").2.1.entries.lookup
        (format_meta_cache_path "p") = none)
    ∧ ((ContentCacheAccessor.stat [("p", [7, 7, 7])] ⟨[], [], []⟩ "p").2.1.entries.lookup
        "p" = some (bincodeEncode ⟨3, none, none, none⟩))
    ∧ ((ContentCacheAccessor.stat [("p", [7, 7, 7])] ⟨[], [], []⟩ "p").2.2 =
        [.cacheRead (format_meta_cache_path "p") ⟨none, none⟩, .originStat "p",
         .cacheWrite "p" 4])
    ∧ ((ContentCacheAccessor.stat [("p", [7, 7, 7])]
          (ContentCacheAccessor.stat [("p", [7, 7, 7])] ⟨[], [], []⟩ "p").2.1 "p").2.2 =
        [.cacheRead (format_meta_cache_path "p") ⟨none, none⟩, .originStat "p",
         .cacheWrite "p" 4]) := by
  refine ⟨?_, ?_, ?_, ?_⟩ <;> rfl

end OpenDAL
